import Mathlib

/-!
Verification of the youtube-video-downloader service (main.go, disk_unix.go)
against its natural-language specification.

The Go source is shallowly embedded: pure helpers become Lean functions,
the stateful download pipeline becomes explicit state passing over an
abstract filesystem, and the admission semaphore becomes a transition
system.  Machine integers (Go int64) are modeled as Int with an explicit
wrap at 2 to the 64th power where the source arithmetic can overflow.
External collaborators (the youtube catalog resolver, the network stream
source, the ffmpeg muxer, the OS filesystem) are modeled at their
interface boundary, as the spec prescribes, via outcome parameters.
-/

/-- Two-complement wraparound of Go int64 arithmetic. -/
def wrap64 (n : Int) : Int := (n + 2 ^ 63) % 2 ^ 64 - 2 ^ 63

/-! ## Variant descriptors and format selection (main.go: findBestVideoFormat,
findBestAudioFormat).  A youtube.Format is embedded with the four fields the
program reads: Height, Bitrate, MimeType, ContentLength. -/

structure Format where
  height : Int
  bitrate : Int
  mimeType : List Char
  contentLength : Int
deriving DecidableEq, Repr

/-- Model of Go strings.Contains: pat occurs as a contiguous substring of s. -/
def containsSub (s pat : List Char) : Bool := decide (pat <:+: s)

def videoTag : List Char := "video".toList

def audioTag : List Char := "audio".toList

/-- The loop condition of findBestVideoFormat apart from the running-best
comparison: Height > 0, MimeType contains "video", Height at most the
configured ceiling. -/
def videoBase (maxH : Int) (f : Format) : Bool :=
  decide (0 < f.height) && containsSub f.mimeType videoTag && decide (f.height ≤ maxH)

/-- The loop condition of findBestAudioFormat apart from the running-best
comparison: MimeType contains "audio". -/
def audioBase (f : Format) : Bool := containsSub f.mimeType audioTag

/-- The shared shape of the two selection loops in main.go: a linear scan
keeping (bestFormat, bestQuality), updating both whenever the candidate
passes the base condition and strictly beats the running best key.  The
module is built with Go 1.24 (go.mod), where the range variable is fresh
per iteration, so the retained pointer bestFormat = &format denotes the
value of the iteration that assigned it; the model therefore returns that
Format value. -/
def bestByAux (base : Format → Bool) (key : Format → Int) :
    List Format → Option Format × Int → Option Format × Int
  | [], acc => acc
  | f :: rest, acc =>
      bestByAux base key rest
        (if base f = true ∧ acc.2 < key f then (some f, key f) else acc)

/-- main.go findBestVideoFormat: scan with bestQuality initialized to 0. -/
def findBestVideoFormat (maxH : Int) (formats : List Format) : Option Format :=
  (bestByAux (videoBase maxH) (fun f => f.height) formats (none, 0)).1

/-- main.go findBestAudioFormat: scan with bestBitrate initialized to 0. -/
def findBestAudioFormat (formats : List Format) : Option Format :=
  (bestByAux audioBase (fun f => f.bitrate) formats (none, 0)).1

/-! ### Invariants of the selection scan -/

lemma bestByAux_none_start (base : Format → Bool) (key : Format → Int) :
    ∀ (rest : List Format) (acc : Option Format × Int),
      (bestByAux base key rest acc).1 = none → acc.1 = none := by
  intro rest
  induction rest with
  | nil => intro acc h; exact h
  | cons f rest ih =>
      intro acc h
      simp only [bestByAux] at h
      by_cases hc : base f = true ∧ acc.2 < key f
      · rw [if_pos hc] at h
        exact absurd (ih _ h) (by simp)
      · rw [if_neg hc] at h
        exact ih _ h

lemma bestByAux_none (base : Format → Bool) (key : Format → Int) :
    ∀ (rest : List Format) (acc : Option Format × Int),
      (bestByAux base key rest acc).1 = none →
      bestByAux base key rest acc = acc ∧
        ∀ g ∈ rest, ¬(base g = true ∧ acc.2 < key g) := by
  intro rest
  induction rest with
  | nil => intro acc _; exact ⟨rfl, by simp⟩
  | cons f rest ih =>
      intro acc h
      simp only [bestByAux] at h ⊢
      by_cases hc : base f = true ∧ acc.2 < key f
      · rw [if_pos hc] at h
        have := bestByAux_none_start base key rest _ h
        simp at this
      · rw [if_neg hc] at h ⊢
        rcases ih _ h with ⟨heq, hall⟩
        refine ⟨heq, ?_⟩
        intro g hg
        rcases List.mem_cons.mp hg with rfl | hg'
        · exact hc
        · exact hall g hg'

lemma bestByAux_base (base : Format → Bool) (key : Format → Int) :
    ∀ (rest : List Format) (acc : Option Format × Int),
      (∀ f, acc.1 = some f → base f = true) →
      ∀ f, (bestByAux base key rest acc).1 = some f → base f = true := by
  intro rest
  induction rest with
  | nil => intro acc hacc f h; exact hacc f h
  | cons g rest ih =>
      intro acc hacc f h
      simp only [bestByAux] at h
      by_cases hc : base g = true ∧ acc.2 < key g
      · rw [if_pos hc] at h
        exact ih _ (by intro f' hf'; simp at hf'; rw [← hf']; exact hc.1) f h
      · rw [if_neg hc] at h
        exact ih _ hacc f h

lemma bestByAux_key (base : Format → Bool) (key : Format → Int) :
    ∀ (rest : List Format) (acc : Option Format × Int),
      (∀ f, acc.1 = some f → key f = acc.2) →
      ∀ f, (bestByAux base key rest acc).1 = some f →
        key f = (bestByAux base key rest acc).2 := by
  intro rest
  induction rest with
  | nil => intro acc hacc f h; exact hacc f h
  | cons g rest ih =>
      intro acc hacc f h
      simp only [bestByAux] at h ⊢
      by_cases hc : base g = true ∧ acc.2 < key g
      · rw [if_pos hc] at h ⊢
        exact ih _ (by intro f' hf'; simp at hf'; rw [← hf']) f h
      · rw [if_neg hc] at h ⊢
        exact ih _ hacc f h

lemma bestByAux_ub (base : Format → Bool) (key : Format → Int) :
    ∀ (rest : List Format) (acc : Option Format × Int),
      acc.2 ≤ (bestByAux base key rest acc).2 ∧
      ∀ g ∈ rest, base g = true → key g ≤ (bestByAux base key rest acc).2 := by
  intro rest
  induction rest with
  | nil => intro acc; exact ⟨le_refl _, by simp⟩
  | cons f rest ih =>
      intro acc
      simp only [bestByAux]
      by_cases hc : base f = true ∧ acc.2 < key f
      · rw [if_pos hc]
        rcases ih (some f, key f) with ⟨h1, h2⟩
        refine ⟨le_of_lt (lt_of_lt_of_le hc.2 h1), ?_⟩
        intro g hg hbg
        rcases List.mem_cons.mp hg with rfl | hg'
        · exact h1
        · exact h2 g hg' hbg
      · rw [if_neg hc]
        rcases ih acc with ⟨h1, h2⟩
        refine ⟨h1, ?_⟩
        intro g hg hbg
        rcases List.mem_cons.mp hg with rfl | hg'
        · exact le_trans (not_lt.mp (not_and.mp hc hbg)) h1
        · exact h2 g hg' hbg

lemma bestByAux_first (base : Format → Bool) (key : Format → Int) :
    ∀ (rest : List Format) (acc : Option Format × Int) (f : Format),
      (bestByAux base key rest acc).1 = some f →
      acc.1 = some f ∨
      ∃ l₁ l₂, rest = l₁ ++ f :: l₂ ∧ base f = true ∧ acc.2 < key f ∧
        ∀ g ∈ l₁, base g = true → key g < key f := by
  intro rest
  induction rest with
  | nil => intro acc f h; exact Or.inl h
  | cons f₀ rest ih =>
      intro acc f h
      simp only [bestByAux] at h
      by_cases hc : base f₀ = true ∧ acc.2 < key f₀
      · rw [if_pos hc] at h
        rcases ih _ f h with heq | ⟨l₁, l₂, hsplit, hbf, hlt, hall⟩
        · simp only [Option.some.injEq] at heq
          right
          exact ⟨[], rest, by simp [heq], by rw [← heq]; exact hc.1,
            by rw [← heq]; exact hc.2, by simp⟩
        · right
          have hlt' : key f₀ < key f := hlt
          refine ⟨f₀ :: l₁, l₂, by rw [hsplit]; rfl, hbf,
            lt_trans hc.2 hlt', ?_⟩
          intro g hg hbg
          rcases List.mem_cons.mp hg with rfl | hg'
          · exact hlt'
          · exact hall g hg' hbg
      · rw [if_neg hc] at h
        rcases ih _ f h with heq | ⟨l₁, l₂, hsplit, hbf, hlt, hall⟩
        · exact Or.inl heq
        · right
          refine ⟨f₀ :: l₁, l₂, by rw [hsplit]; rfl, hbf, hlt, ?_⟩
          intro g hg hbg
          rcases List.mem_cons.mp hg with rfl | hg'
          · exact lt_of_le_of_lt (not_lt.mp (not_and.mp hc hbg)) hlt
          · exact hall g hg' hbg

lemma bestByAux_no_base (base : Format → Bool) (key : Format → Int) :
    ∀ (rest : List Format) (acc : Option Format × Int),
      (∀ g ∈ rest, base g = false) → bestByAux base key rest acc = acc := by
  intro rest
  induction rest with
  | nil => intro acc _; rfl
  | cons f rest ih =>
      intro acc hall
      simp only [bestByAux]
      have hf : base f = false := hall f (by simp)
      rw [if_neg (by simp [hf])]
      exact ih acc (fun g hg => hall g (List.mem_cons_of_mem _ hg))

lemma bestByAux_skip (base : Format → Bool) (key : Format → Int) :
    ∀ (rest : List Format) (acc : Option Format × Int),
      (∀ g ∈ rest, ¬(base g = true ∧ acc.2 < key g)) →
      bestByAux base key rest acc = acc := by
  intro rest
  induction rest with
  | nil => intro acc _; rfl
  | cons f rest ih =>
      intro acc hall
      simp only [bestByAux]
      rw [if_neg (hall f (by simp))]
      exact ih acc (fun g hg => hall g (List.mem_cons_of_mem _ hg))

/-- Eligibility for video selection as the claim states it: video-tagged,
positive height, height not exceeding the ceiling.  This coincides with the
loop condition videoBase. -/
lemma videoBase_height_le (maxH : Int) (f : Format) (h : videoBase maxH f = true) :
    f.height ≤ maxH := by
  simp [videoBase] at h
  exact h.2

lemma videoBase_height_pos (maxH : Int) (f : Format) (h : videoBase maxH f = true) :
    0 < f.height := by
  simp [videoBase] at h
  exact h.1.1

/-- C2: findBestVideoFormat never returns a variant whose height exceeds the
ceiling, and whenever an eligible variant (video-tagged, positive height,
height at most the ceiling) exists it returns the first-seen variant of
maximum eligible height: the scan decomposes the list around the returned
variant so that every eligible variant is at most its height and every
eligible variant strictly before it is strictly below its height. -/
theorem findBestVideoFormat_spec (maxH : Int) (formats : List Format) :
    (∀ f, findBestVideoFormat maxH formats = some f → f.height ≤ maxH) ∧
    ((∃ g ∈ formats, videoBase maxH g = true) →
      ∃ f l₁ l₂, findBestVideoFormat maxH formats = some f ∧
        videoBase maxH f = true ∧ formats = l₁ ++ f :: l₂ ∧
        (∀ g ∈ formats, videoBase maxH g = true → g.height ≤ f.height) ∧
        (∀ g ∈ l₁, videoBase maxH g = true → g.height < f.height)) := by
  constructor
  · intro f hf
    have hb := bestByAux_base (videoBase maxH) (fun f => f.height) formats (none, 0)
      (by simp) f hf
    exact videoBase_height_le maxH f hb
  · intro ⟨g, hg, hbg⟩
    rcases hres : (bestByAux (videoBase maxH) (fun f => f.height) formats (none, 0)).1
      with _ | f
    · rcases bestByAux_none (videoBase maxH) (fun f => f.height) formats (none, 0) hres
        with ⟨_, hall⟩
      exact absurd ⟨hbg, videoBase_height_pos maxH g hbg⟩ (hall g hg)
    · have hbase := bestByAux_base (videoBase maxH) (fun f => f.height) formats (none, 0)
        (by simp) f hres
      have hkey := bestByAux_key (videoBase maxH) (fun f => f.height) formats (none, 0)
        (by simp) f hres
      have hub := bestByAux_ub (videoBase maxH) (fun f => f.height) formats (none, 0)
      rcases bestByAux_first (videoBase maxH) (fun f => f.height) formats (none, 0) f hres
        with habs | ⟨l₁, l₂, hsplit, _, _, hfirst⟩
      · simp at habs
      · refine ⟨f, l₁, l₂, hres, hbase, hsplit, ?_, hfirst⟩
        intro g' hg' hbg'
        have := hub.2 g' hg' hbg'
        rw [← hkey] at this
        exact this

/-- Spec scenario for C2: variants at 1440p and 720p with ceiling 1080 select
the 720p variant.  Instantiates findBestVideoFormat_spec at that input and
discharges its eligibility hypothesis. -/
theorem findBestVideoFormat_spec_witness :
    ∃ f l₁ l₂,
      findBestVideoFormat 1080
        [⟨1440, 0, "video/mp4".toList, 300⟩, ⟨720, 0, "video/mp4".toList, 100⟩] = some f ∧
      videoBase 1080 f = true ∧
      [⟨1440, 0, "video/mp4".toList, 300⟩, ⟨720, 0, "video/mp4".toList, 100⟩] =
        l₁ ++ f :: l₂ ∧
      (∀ g ∈ [(⟨1440, 0, "video/mp4".toList, 300⟩ : Format),
              ⟨720, 0, "video/mp4".toList, 100⟩],
        videoBase 1080 g = true → g.height ≤ f.height) ∧
      (∀ g ∈ l₁, videoBase 1080 g = true → g.height < f.height) :=
  (findBestVideoFormat_spec 1080
      [⟨1440, 0, "video/mp4".toList, 300⟩, ⟨720, 0, "video/mp4".toList, 100⟩]).2
    ⟨⟨720, 0, "video/mp4".toList, 100⟩, by simp, by decide⟩

/-- C7 counterexample: a list containing an audio-tagged variant (bitrate 0)
for which findBestAudioFormat returns none, refuting the claim that a
first-seen maximal-bitrate audio variant is returned whenever an audio-tagged
variant exists.  The loop condition format.Bitrate > bestBitrate starts from
bestBitrate = 0, so a bitrate-0 audio variant is never selected. -/
theorem findBestAudioFormat_zero_bitrate_counterexample :
    audioBase ⟨0, 0, "audio/mp4".toList, 77⟩ = true ∧
    findBestAudioFormat [⟨0, 0, "audio/mp4".toList, 77⟩] = none := by
  constructor
  · decide
  · decide

/-- C7 amended: findBestAudioFormat returns none on every list with no
audio-tagged entries (a valid outcome, not a failure), and also on every
list whose audio-tagged entries all have bitrate at most 0 (the scan starts
from bestBitrate 0 with a strict comparison, so none of them is ever
selected); whenever an audio-tagged variant with positive bitrate exists it
returns the first-seen audio-tagged variant of maximal bitrate (every
audio-tagged variant has at most its bitrate; every audio-tagged variant
strictly before it in scan order has strictly smaller bitrate). -/
theorem findBestAudioFormat_amended (formats : List Format) :
    ((∀ g ∈ formats, audioBase g = false) → findBestAudioFormat formats = none) ∧
    ((∀ g ∈ formats, audioBase g = true → g.bitrate ≤ 0) →
      findBestAudioFormat formats = none) ∧
    ((∃ g ∈ formats, audioBase g = true ∧ 0 < g.bitrate) →
      ∃ f l₁ l₂, findBestAudioFormat formats = some f ∧
        audioBase f = true ∧ formats = l₁ ++ f :: l₂ ∧
        (∀ g ∈ formats, audioBase g = true → g.bitrate ≤ f.bitrate) ∧
        (∀ g ∈ l₁, audioBase g = true → g.bitrate < f.bitrate)) := by
  refine ⟨?_, ?_, ?_⟩
  · intro hall
    unfold findBestAudioFormat
    rw [bestByAux_no_base audioBase (fun f => f.bitrate) formats (none, 0) hall]
  · intro hall
    unfold findBestAudioFormat
    rw [bestByAux_skip audioBase (fun f => f.bitrate) formats (none, 0) ?_]
    intro g hg hcond
    have := hall g hg hcond.1
    have h2 : (0 : Int) < g.bitrate := hcond.2
    omega
  · intro ⟨g, hg, hbg, hpos⟩
    rcases hres : (bestByAux audioBase (fun f => f.bitrate) formats (none, 0)).1
      with _ | f
    · rcases bestByAux_none audioBase (fun f => f.bitrate) formats (none, 0) hres
        with ⟨_, hall⟩
      exact absurd ⟨hbg, hpos⟩ (hall g hg)
    · have hbase := bestByAux_base audioBase (fun f => f.bitrate) formats (none, 0)
        (by simp) f hres
      have hkey := bestByAux_key audioBase (fun f => f.bitrate) formats (none, 0)
        (by simp) f hres
      have hub := bestByAux_ub audioBase (fun f => f.bitrate) formats (none, 0)
      rcases bestByAux_first audioBase (fun f => f.bitrate) formats (none, 0) f hres
        with habs | ⟨l₁, l₂, hsplit, _, _, hfirst⟩
      · simp at habs
      · refine ⟨f, l₁, l₂, hres, hbase, hsplit, ?_, hfirst⟩
        intro g' hg' hbg'
        have := hub.2 g' hg' hbg'
        rw [← hkey] at this
        exact this

/-- Witness for findBestAudioFormat_amended: instantiates all three
conjuncts at concrete lists and discharges their hypotheses, including a
list whose only audio-tagged entry has bitrate 0. -/
theorem findBestAudioFormat_amended_witness :
    findBestAudioFormat [⟨720, 0, "video/mp4".toList, 10⟩] = none ∧
    findBestAudioFormat [⟨0, 0, "audio/webm".toList, 8⟩] = none ∧
    ∃ f l₁ l₂,
      findBestAudioFormat
        [⟨0, 128, "audio/mp4".toList, 5⟩, ⟨0, 160, "audio/webm".toList, 6⟩] = some f ∧
      audioBase f = true ∧
      [⟨0, 128, "audio/mp4".toList, 5⟩, ⟨0, 160, "audio/webm".toList, 6⟩] =
        l₁ ++ f :: l₂ ∧
      (∀ g ∈ [(⟨0, 128, "audio/mp4".toList, 5⟩ : Format),
              ⟨0, 160, "audio/webm".toList, 6⟩],
        audioBase g = true → g.bitrate ≤ f.bitrate) ∧
      (∀ g ∈ l₁, audioBase g = true → g.bitrate < f.bitrate) :=
  ⟨(findBestAudioFormat_amended [⟨720, 0, "video/mp4".toList, 10⟩]).1
      (by intro g hg; simp at hg; rw [hg]; decide),
   (findBestAudioFormat_amended [⟨0, 0, "audio/webm".toList, 8⟩]).2.1
      (by intro g hg _; simp at hg; subst hg; decide),
   (findBestAudioFormat_amended
        [⟨0, 128, "audio/mp4".toList, 5⟩, ⟨0, 160, "audio/webm".toList, 6⟩]).2.2
      ⟨⟨0, 128, "audio/mp4".toList, 5⟩, by simp, by decide, by decide⟩⟩

/-! ## Configuration (main.go: Config, loadConfigFromEnv).  Durations are in
nanoseconds (Go time.Duration is an int64 nanosecond count).  The Go stdlib
parsers strconv.Atoi, time.ParseDuration and strconv.ParseInt are external to
the repository and are modeled as abstract parsers returning none exactly on
the inputs they reject; every theorem below holds for all parser behaviors. -/

structure Config where
  maxVideoHeight : Int
  bufferSize : Int
  downloadTimeout : Int
  maxConcurrent : Int
  cleanupInterval : Int
  tempDir : String
  ffmpegPreset : String
  maxFileAge : Int
  serverPort : String
  minDiskSpaceGB : Int
deriving DecidableEq, Repr

/-- The package-level config literal in main.go.  The default TempDir is
filepath.Join(os.TempDir(), "youtube-downloads"); os.TempDir is an external
query, passed in as osTmp. -/
def defaultConfig (osTmp : String) : Config :=
  { maxVideoHeight := 1080
    bufferSize := 128 * 1024
    downloadTimeout := 900000000000
    maxConcurrent := 3
    cleanupInterval := 900000000000
    tempDir := osTmp ++ "/youtube-downloads"
    ffmpegPreset := "veryfast"
    maxFileAge := 1800000000000
    serverPort := "7839"
    minDiskSpaceGB := 2 }

/-- First block of loadConfigFromEnv: SERVER_PORT (no parsing). -/
def envServerPort (env : String → String) (cfg : Config) : Config :=
  if env "SERVER_PORT" ≠ "" then { cfg with serverPort := env "SERVER_PORT" } else cfg

/-- Second block: MAX_VIDEO_HEIGHT via strconv.Atoi, applied only on parse
success. -/
def envMaxVideoHeight (atoi : String → Option Int) (env : String → String)
    (cfg : Config) : Config :=
  if env "MAX_VIDEO_HEIGHT" ≠ "" then
    match atoi (env "MAX_VIDEO_HEIGHT") with
    | some h => { cfg with maxVideoHeight := h }
    | none => cfg
  else cfg

/-- Third block: MAX_CONCURRENT via strconv.Atoi. -/
def envMaxConcurrent (atoi : String → Option Int) (env : String → String)
    (cfg : Config) : Config :=
  if env "MAX_CONCURRENT" ≠ "" then
    match atoi (env "MAX_CONCURRENT") with
    | some c => { cfg with maxConcurrent := c }
    | none => cfg
  else cfg

/-- Fourth block: FFMPEG_PRESET (no parsing). -/
def envFfmpegPreset (env : String → String) (cfg : Config) : Config :=
  if env "FFMPEG_PRESET" ≠ "" then { cfg with ffmpegPreset := env "FFMPEG_PRESET" }
  else cfg

/-- Fifth block: TEMP_DIR (no parsing). -/
def envTempDir (env : String → String) (cfg : Config) : Config :=
  if env "TEMP_DIR" ≠ "" then { cfg with tempDir := env "TEMP_DIR" } else cfg

/-- Sixth block: DOWNLOAD_TIMEOUT via time.ParseDuration. -/
def envDownloadTimeout (parseDuration : String → Option Int)
    (env : String → String) (cfg : Config) : Config :=
  if env "DOWNLOAD_TIMEOUT" ≠ "" then
    match parseDuration (env "DOWNLOAD_TIMEOUT") with
    | some d => { cfg with downloadTimeout := d }
    | none => cfg
  else cfg

/-- Seventh block: CLEANUP_INTERVAL via time.ParseDuration. -/
def envCleanupInterval (parseDuration : String → Option Int)
    (env : String → String) (cfg : Config) : Config :=
  if env "CLEANUP_INTERVAL" ≠ "" then
    match parseDuration (env "CLEANUP_INTERVAL") with
    | some d => { cfg with cleanupInterval := d }
    | none => cfg
  else cfg

/-- Eighth block: MIN_DISK_SPACE_GB via strconv.ParseInt. -/
def envMinDiskSpace (parseInt64 : String → Option Int) (env : String → String)
    (cfg : Config) : Config :=
  if env "MIN_DISK_SPACE_GB" ≠ "" then
    match parseInt64 (env "MIN_DISK_SPACE_GB") with
    | some s => { cfg with minDiskSpaceGB := s }
    | none => cfg
  else cfg

/-- main.go loadConfigFromEnv: the eight environment blocks applied in source
order to the package-level config.  Each handled variable is read from the
process environment (empty string means unset, as with os.Getenv), parsed
where numeric, and applied only when parsing succeeds. -/
def loadConfigFromEnv (atoi : String → Option Int)
    (parseDuration : String → Option Int) (parseInt64 : String → Option Int)
    (env : String → String) (cfg : Config) : Config :=
  envMinDiskSpace parseInt64 env
    (envCleanupInterval parseDuration env
      (envDownloadTimeout parseDuration env
        (envTempDir env
          (envFfmpegPreset env
            (envMaxConcurrent atoi env
              (envMaxVideoHeight atoi env
                (envServerPort env cfg)))))))

lemma envServerPort_eq (env : String → String) (cfg : Config) :
    envServerPort env cfg =
      { cfg with serverPort :=
          if (env "SERVER_PORT") ≠ "" then env "SERVER_PORT" else cfg.serverPort } := by
  unfold envServerPort
  by_cases h : env "SERVER_PORT" ≠ "" <;> simp [h]

lemma envMaxVideoHeight_eq (atoi : String → Option Int) (env : String → String)
    (cfg : Config) :
    envMaxVideoHeight atoi env cfg =
      { cfg with maxVideoHeight :=
          if (env "MAX_VIDEO_HEIGHT") ≠ "" then
            (match atoi (env "MAX_VIDEO_HEIGHT") with
            | some h => h
            | none => cfg.maxVideoHeight)
          else cfg.maxVideoHeight } := by
  unfold envMaxVideoHeight
  by_cases h : env "MAX_VIDEO_HEIGHT" ≠ "" <;>
    rcases ha : atoi (env "MAX_VIDEO_HEIGHT") with _ | v <;> simp [h, ha]

lemma envMaxConcurrent_eq (atoi : String → Option Int) (env : String → String)
    (cfg : Config) :
    envMaxConcurrent atoi env cfg =
      { cfg with maxConcurrent :=
          if (env "MAX_CONCURRENT") ≠ "" then
            (match atoi (env "MAX_CONCURRENT") with
            | some c => c
            | none => cfg.maxConcurrent)
          else cfg.maxConcurrent } := by
  unfold envMaxConcurrent
  by_cases h : env "MAX_CONCURRENT" ≠ "" <;>
    rcases ha : atoi (env "MAX_CONCURRENT") with _ | v <;> simp [h, ha]

lemma envFfmpegPreset_eq (env : String → String) (cfg : Config) :
    envFfmpegPreset env cfg =
      { cfg with ffmpegPreset :=
          if (env "FFMPEG_PRESET") ≠ "" then env "FFMPEG_PRESET"
          else cfg.ffmpegPreset } := by
  unfold envFfmpegPreset
  by_cases h : env "FFMPEG_PRESET" ≠ "" <;> simp [h]

lemma envTempDir_eq (env : String → String) (cfg : Config) :
    envTempDir env cfg =
      { cfg with tempDir :=
          if (env "TEMP_DIR") ≠ "" then env "TEMP_DIR" else cfg.tempDir } := by
  unfold envTempDir
  by_cases h : env "TEMP_DIR" ≠ "" <;> simp [h]

lemma envDownloadTimeout_eq (parseDuration : String → Option Int)
    (env : String → String) (cfg : Config) :
    envDownloadTimeout parseDuration env cfg =
      { cfg with downloadTimeout :=
          if (env "DOWNLOAD_TIMEOUT") ≠ "" then
            (match parseDuration (env "DOWNLOAD_TIMEOUT") with
            | some d => d
            | none => cfg.downloadTimeout)
          else cfg.downloadTimeout } := by
  unfold envDownloadTimeout
  by_cases h : env "DOWNLOAD_TIMEOUT" ≠ "" <;>
    rcases ha : parseDuration (env "DOWNLOAD_TIMEOUT") with _ | v <;> simp [h, ha]

lemma envCleanupInterval_eq (parseDuration : String → Option Int)
    (env : String → String) (cfg : Config) :
    envCleanupInterval parseDuration env cfg =
      { cfg with cleanupInterval :=
          if (env "CLEANUP_INTERVAL") ≠ "" then
            (match parseDuration (env "CLEANUP_INTERVAL") with
            | some d => d
            | none => cfg.cleanupInterval)
          else cfg.cleanupInterval } := by
  unfold envCleanupInterval
  by_cases h : env "CLEANUP_INTERVAL" ≠ "" <;>
    rcases ha : parseDuration (env "CLEANUP_INTERVAL") with _ | v <;> simp [h, ha]

lemma envMinDiskSpace_eq (parseInt64 : String → Option Int)
    (env : String → String) (cfg : Config) :
    envMinDiskSpace parseInt64 env cfg =
      { cfg with minDiskSpaceGB :=
          if (env "MIN_DISK_SPACE_GB") ≠ "" then
            (match parseInt64 (env "MIN_DISK_SPACE_GB") with
            | some s => s
            | none => cfg.minDiskSpaceGB)
          else cfg.minDiskSpaceGB } := by
  unfold envMinDiskSpace
  by_cases h : env "MIN_DISK_SPACE_GB" ≠ "" <;>
    rcases ha : parseInt64 (env "MIN_DISK_SPACE_GB") with _ | v <;> simp [h, ha]

/-- C8 counterexample: an environment that sets BUFFER_SIZE and MAX_FILE_AGE
(together with a parser accepting those values) leaves bufferSize and
maxFileAge at their defaults even though MAX_VIDEO_HEIGHT set in the same
environment does take effect: the two fields have no environment override in
loadConfigFromEnv, refuting the claim that each of the ten fields is
independently overridable. -/
theorem loadConfigFromEnv_fixed_fields_counterexample :
    (loadConfigFromEnv (fun s => if s = "720" then some 720 else some 999)
      (fun _ => some 60000000000) (fun _ => some 9)
      (fun v => if v = "BUFFER_SIZE" then "4096"
        else if v = "MAX_FILE_AGE" then "1m"
        else if v = "MAX_VIDEO_HEIGHT" then "720" else "")
      (defaultConfig "/tmp")).bufferSize = 128 * 1024 ∧
    (loadConfigFromEnv (fun s => if s = "720" then some 720 else some 999)
      (fun _ => some 60000000000) (fun _ => some 9)
      (fun v => if v = "BUFFER_SIZE" then "4096"
        else if v = "MAX_FILE_AGE" then "1m"
        else if v = "MAX_VIDEO_HEIGHT" then "720" else "")
      (defaultConfig "/tmp")).maxFileAge = 1800000000000 ∧
    (loadConfigFromEnv (fun s => if s = "720" then some 720 else some 999)
      (fun _ => some 60000000000) (fun _ => some 9)
      (fun v => if v = "BUFFER_SIZE" then "4096"
        else if v = "MAX_FILE_AGE" then "1m"
        else if v = "MAX_VIDEO_HEIGHT" then "720" else "")
      (defaultConfig "/tmp")).maxVideoHeight = 720 := by
  refine ⟨?_, ?_, ?_⟩ <;> decide

/-- C8 amended: exactly eight of the ten configuration fields are
independently overridable from the environment (server port, max video
height, max concurrent, ffmpeg preset, temp dir, download timeout, cleanup
interval, min disk space), each falling back to its default when its
variable is unset or its value fails to parse; the I/O buffer size and the
max temp-file age are never changed by loadConfigFromEnv.  Stated as a full
characterization of the loaded configuration. -/
theorem loadConfigFromEnv_characterization (atoi parseDuration parseInt64 :
    String → Option Int) (env : String → String) (osTmp : String) :
    loadConfigFromEnv atoi parseDuration parseInt64 env (defaultConfig osTmp) =
    { maxVideoHeight := if env "MAX_VIDEO_HEIGHT" ≠ "" then
        match atoi (env "MAX_VIDEO_HEIGHT") with
        | some h => h
        | none => 1080
        else 1080
      bufferSize := 128 * 1024
      downloadTimeout := if env "DOWNLOAD_TIMEOUT" ≠ "" then
        match parseDuration (env "DOWNLOAD_TIMEOUT") with
        | some d => d
        | none => 900000000000
        else 900000000000
      maxConcurrent := if env "MAX_CONCURRENT" ≠ "" then
        match atoi (env "MAX_CONCURRENT") with
        | some c => c
        | none => 3
        else 3
      cleanupInterval := if env "CLEANUP_INTERVAL" ≠ "" then
        match parseDuration (env "CLEANUP_INTERVAL") with
        | some d => d
        | none => 900000000000
        else 900000000000
      tempDir := if env "TEMP_DIR" ≠ "" then env "TEMP_DIR"
        else osTmp ++ "/youtube-downloads"
      ffmpegPreset := if env "FFMPEG_PRESET" ≠ "" then env "FFMPEG_PRESET"
        else "veryfast"
      maxFileAge := 1800000000000
      serverPort := if env "SERVER_PORT" ≠ "" then env "SERVER_PORT" else "7839"
      minDiskSpaceGB := if env "MIN_DISK_SPACE_GB" ≠ "" then
        match parseInt64 (env "MIN_DISK_SPACE_GB") with
        | some s => s
        | none => 2
        else 2 } := by
  simp only [loadConfigFromEnv, envServerPort_eq, envMaxVideoHeight_eq,
    envMaxConcurrent_eq, envFfmpegPreset_eq, envTempDir_eq,
    envDownloadTimeout_eq, envCleanupInterval_eq, envMinDiskSpace_eq,
    defaultConfig]

/-! ## Filesystem, temp paths and the download pipeline (main.go:
processDownload, downloadStream, cleanupFiles, downloadHandler).

The scratch filesystem is modeled as a partial map from paths (byte-free
character lists) to file contents (byte lists).  External effects are
supplied as outcome parameters: the catalog resolver may fail, each stream
fetch may fail before or after its os.Create, the ffmpeg subprocess may
fail and, being external, may or may not have produced a partial output
file when it fails. -/

def Fs : Type := List Char → Option (List Nat)

def emptyFs : Fs := fun _ => none

def fsUpdate (fs : Fs) (p : List Char) (c : List Nat) : Fs :=
  fun q => if q = p then some c else fs q

def fsRemove (fs : Fs) (p : List Char) : Fs :=
  fun q => if q = p then none else fs q

def videoSuffix : List Char := "_video.tmp".toList

def audioSuffix : List Char := "_audio.tmp".toList

def finalSuffix : List Char := "_final.mp4".toList

/-- filepath.Join(config.TempDir, fmt.Sprintf(pattern, tempID)): the run
identifiers produced by the source are decimal strings, on which Join is
plain separator concatenation. -/
def tempPath (dir id sfx : List Char) : List Char := dir ++ '/' :: (id ++ sfx)

def videoPathOf (dir id : List Char) : List Char := tempPath dir id videoSuffix

def audioPathOf (dir id : List Char) : List Char := tempPath dir id audioSuffix

def finalPathOf (dir id : List Char) : List Char := tempPath dir id finalSuffix

/-- The three generated paths of one pipeline run. -/
def runPaths (dir id : List Char) : List (List Char) :=
  [videoPathOf dir id, audioPathOf dir id, finalPathOf dir id]

/-- Outcome of one stream fetch, fixed by the external stream source and
context: the GetStreamContext call may fail (no file is touched), the read
loop may fail after os.Create produced the file (a partial file remains),
or the whole stream is written. -/
inductive StreamOutcome where
  | noStream : StreamOutcome
  | readFail (written : List Nat) : StreamOutcome
  | success (data : List Nat) : StreamOutcome
deriving DecidableEq, Repr

/-- main.go downloadStream: on stream-open failure nothing is written;
otherwise os.Create creates or truncates the destination (Go os.Create is
O_RDWR, O_CREATE, O_TRUNC: an existing file is truncated, not an error) and
the copy loop writes until end of stream, error, or cancellation.  Returns
the filesystem and whether the fetch succeeded. -/
def downloadStream (out : StreamOutcome) (dest : List Char) (fs : Fs) : Fs × Bool :=
  match out with
  | StreamOutcome.noStream => (fs, false)
  | StreamOutcome.readFail written => (fsUpdate fs dest written, false)
  | StreamOutcome.success data => (fsUpdate fs dest data, true)

/-- main.go cleanupFiles: best-effort removal of every non-empty path. -/
def cleanupFiles (files : List (List Char)) (fs : Fs) : Fs :=
  files.foldl (fun fs f => if f = [] then fs else fsRemove fs f) fs

/-- disk_unix.go checkDiskSpace: fails exactly when the available bytes of
the scratch filesystem are below the requirement. -/
def checkDiskSpaceFails (available requiredBytes : Int) : Bool :=
  decide (available < requiredBytes)

/-- Environment of one pipeline run: the external outcomes it encounters, in
source order.  tempID is the decimal rendering of time.Now().UnixNano() at
path-generation time; nothing in the source forces distinct concurrent runs
to observe distinct readings. -/
structure RunEnv where
  getVideoOk : Bool
  formats : List Format
  available : Int
  tempID : List Char
  videoFetch : StreamOutcome
  audioFetch : StreamOutcome
  mergeOk : Bool
  mergeLeavesOutput : Bool
  mergedBytes : List Nat
  streamToClientOk : Bool

/-- main.go processDownload: resolve the catalog, select formats, check
capacity against three times the summed content lengths (int64 arithmetic),
generate the run-scoped paths, fetch video and audio, then merge.  Returns
(filesystem, outputFile, tempFiles, ok) exactly as the Go function returns
(outputFile, filename, tempFiles, err); on every error return the Go
outputFile named result is the empty string. -/
def processDownload (cfg : Config) (env : RunEnv) (fs : Fs) :
    Fs × List Char × List (List Char) × Bool :=
  if env.getVideoOk = false then (fs, [], [], false)
  else
    match findBestVideoFormat cfg.maxVideoHeight env.formats,
        findBestAudioFormat env.formats with
    | some bv, some ba =>
      let estimatedSize := wrap64 (bv.contentLength + ba.contentLength)
      if 0 < estimatedSize ∧
          checkDiskSpaceFails env.available (wrap64 (estimatedSize * 3)) = true then
        (fs, [], [], false)
      else
        let dir := cfg.tempDir.toList
        let videoFile := videoPathOf dir env.tempID
        let audioFile := audioPathOf dir env.tempID
        let outputFile := finalPathOf dir env.tempID
        let tempFiles := [videoFile, audioFile]
        let r1 := downloadStream env.videoFetch videoFile fs
        let r2 := downloadStream env.audioFetch audioFile r1.1
        if r1.2 = false ∨ r2.2 = false then (r2.1, [], tempFiles, false)
        else if env.mergeOk then
          (fsUpdate r2.1 outputFile env.mergedBytes, outputFile, tempFiles, true)
        else
          ((if env.mergeLeavesOutput then fsUpdate r2.1 outputFile env.mergedBytes
            else r2.1), [], tempFiles, false)
    | _, _ => (fs, [], [], false)

/-- Per-request environment of downloadHandler: whether the url parameter is
present and whether an admission slot was obtained within the 30 second
wait. -/
structure HandlerEnv where
  urlPresent : Bool
  acquired : Bool
  run : RunEnv

/-- main.go downloadHandler after the method check: missing url is a 400;
admission timeout is a 503 before any pipeline work; the pre-pipeline disk
guard (MinDiskSpaceGB gigabytes) is a 507; a pipeline error removes the
returned tempFiles and, only when the returned outputFile is non-empty,
that output path, and answers 500; on success the deferred cleanup removes
tempFiles and the output path after streaming, for both streaming outcomes.
Returns (filesystem, http status, pipeline ran). -/
def downloadHandler (cfg : Config) (henv : HandlerEnv) (fs : Fs) :
    Fs × Nat × Bool :=
  if henv.urlPresent = false then (fs, 400, false)
  else if henv.acquired = false then (fs, 503, false)
  else if checkDiskSpaceFails henv.run.available
      (wrap64 (cfg.minDiskSpaceGB * (1024 * 1024 * 1024))) = true then
    (fs, 507, false)
  else
    let r := processDownload cfg henv.run fs
    let fs' := r.1
    let outputFile := r.2.1
    let tempFiles := r.2.2.1
    if r.2.2.2 = false then
      let fs2 := cleanupFiles tempFiles fs'
      let fs3 := if outputFile ≠ [] then fsRemove fs2 outputFile else fs2
      (fs3, 500, true)
    else
      (cleanupFiles (tempFiles ++ [outputFile]) fs', 200, true)

/-! ### Temp-path disjointness (C3) -/

lemma tempPath_inj (dir i j s t : List Char) (hlen : s.length = t.length)
    (h : tempPath dir i s = tempPath dir j t) : i = j ∧ s = t := by
  unfold tempPath at h
  have h2 : '/' :: (i ++ s) = '/' :: (j ++ t) := List.append_cancel_left h
  have h3 : i ++ s = j ++ t := by injection h2
  have hlen2 : i.length = j.length := by
    have hl := congrArg List.length h3
    simp only [List.length_append, hlen] at hl
    omega
  have := List.append_inj h3 hlen2
  exact ⟨this.1, this.2⟩

/-- C3 counterexample: the run token is the wall-clock nanosecond reading
fmt.Sprintf of time.Now().UnixNano(); two concurrently active runs that
observe the same reading generate identical, hence non-disjoint, path sets.
Nothing in the source prevents equal readings under concurrency. -/
theorem runPaths_equal_timestamp_counterexample :
    runPaths "/tmp/youtube-downloads".toList "1700000000000000000".toList =
      runPaths "/tmp/youtube-downloads".toList "1700000000000000000".toList ∧
    ¬ List.Disjoint
        (runPaths "/tmp/youtube-downloads".toList "1700000000000000000".toList)
        (runPaths "/tmp/youtube-downloads".toList "1700000000000000000".toList) := by
  refine ⟨rfl, fun h => ?_⟩
  have hmem : videoPathOf "/tmp/youtube-downloads".toList
      "1700000000000000000".toList ∈
      runPaths "/tmp/youtube-downloads".toList "1700000000000000000".toList := by
    simp [runPaths]
  exact h hmem hmem

/-- C3 amended: two pipeline runs whose generated tokens differ have pairwise
disjoint temp-path sets, because every filename embeds the token followed by
a role suffix of fixed length ten. -/
theorem runPaths_disjoint_of_ne_token (dir id₁ id₂ : List Char)
    (h : id₁ ≠ id₂) :
    List.Disjoint (runPaths dir id₁) (runPaths dir id₂) := by
  intro p hp hq
  simp only [runPaths, videoPathOf, audioPathOf, finalPathOf,
    List.mem_cons, List.mem_singleton, List.not_mem_nil, or_false] at hp hq
  rcases hp with rfl | rfl | rfl <;> rcases hq with he | he | he <;>
    exact h (tempPath_inj dir id₁ id₂ _ _ (by decide) he).1

/-- Witness for runPaths_disjoint_of_ne_token at two concrete distinct
tokens. -/
theorem runPaths_disjoint_of_ne_token_witness :
    List.Disjoint
      (runPaths "/tmp/youtube-downloads".toList "1700000000000000000".toList)
      (runPaths "/tmp/youtube-downloads".toList "1700000000000000001".toList) :=
  runPaths_disjoint_of_ne_token _ _ _ (by decide)

/-! ### Pre-fetch capacity gate (C4) -/

/-- C4: whenever the summed declared content lengths are positive and the
scratch filesystem has fewer available bytes than three times that estimate
(both computed with int64 wraparound, as in the source), processDownload
fails before generating any temp path and before starting any fetch: the
filesystem is unchanged, no temp files are recorded, and the run is an
error. -/
theorem processDownload_insufficient_space (cfg : Config) (env : RunEnv)
    (fs : Fs) (bv ba : Format)
    (hok : env.getVideoOk = true)
    (hv : findBestVideoFormat cfg.maxVideoHeight env.formats = some bv)
    (ha : findBestAudioFormat env.formats = some ba)
    (hpos : 0 < wrap64 (bv.contentLength + ba.contentLength))
    (hfail : checkDiskSpaceFails env.available
      (wrap64 (wrap64 (bv.contentLength + ba.contentLength) * 3)) = true) :
    processDownload cfg env fs = (fs, [], [], false) := by
  unfold processDownload
  rw [hok, hv, ha]
  simp [hpos, hfail]

/-- Spec scenario for C4: one gigabyte available, summed estimate two
gigabytes; the pipeline fails with the filesystem untouched and no temp
files recorded.  Applies processDownload_insufficient_space at that
input. -/
theorem processDownload_insufficient_space_witness :
    processDownload (defaultConfig "/tmp")
      { getVideoOk := true
        formats := [⟨720, 0, "video/mp4".toList, 1000000000⟩,
                    ⟨0, 128, "audio/mp4".toList, 1000000000⟩]
        available := 1073741824
        tempID := "1700000000000000000".toList
        videoFetch := StreamOutcome.success [1]
        audioFetch := StreamOutcome.success [2]
        mergeOk := true
        mergeLeavesOutput := false
        mergedBytes := [3]
        streamToClientOk := true } emptyFs = (emptyFs, [], [], false) :=
  processDownload_insufficient_space _ _ _
    ⟨720, 0, "video/mp4".toList, 1000000000⟩
    ⟨0, 128, "audio/mp4".toList, 1000000000⟩
    rfl (by decide) (by decide) (by decide) (by decide)

/-! ### Stream fetcher destination semantics (C5) -/

/-- C5 counterexample: downloadStream uses os.Create, which creates or
truncates; with the destination already present (contents 1,2,3) the fetch
does not fail: it succeeds and overwrites the file with the streamed
bytes. -/
theorem downloadStream_overwrites_existing_counterexample :
    (fsUpdate emptyFs ("/tmp/youtube-downloads/42_video.tmp".toList) [1, 2, 3])
        ("/tmp/youtube-downloads/42_video.tmp".toList) = some [1, 2, 3] ∧
    (downloadStream (StreamOutcome.success [7])
        ("/tmp/youtube-downloads/42_video.tmp".toList)
        (fsUpdate emptyFs ("/tmp/youtube-downloads/42_video.tmp".toList)
          [1, 2, 3])).2 = true ∧
    (downloadStream (StreamOutcome.success [7])
        ("/tmp/youtube-downloads/42_video.tmp".toList)
        (fsUpdate emptyFs ("/tmp/youtube-downloads/42_video.tmp".toList)
          [1, 2, 3])).1 ("/tmp/youtube-downloads/42_video.tmp".toList) =
      some [7] := by
  refine ⟨?_, ?_, ?_⟩ <;> decide

/-- C5 amended: the fetch opens its destination with create-or-truncate
semantics: for a destination that already exists, the fetch outcome is the
same as if the file were absent (pre-existence never causes a failure), and
a successful fetch leaves the destination holding exactly the streamed
bytes, discarding the previous contents. -/
theorem downloadStream_create_truncate (out : StreamOutcome)
    (dest : List Char) (fs : Fs) (_hexists : fs dest ≠ none) :
    (downloadStream out dest fs).2 = (downloadStream out dest (fsRemove fs dest)).2 ∧
    (∀ d, out = StreamOutcome.success d →
      (downloadStream out dest fs).1 dest = some d ∧
      (downloadStream out dest fs).2 = true) := by
  cases out <;> simp [downloadStream, fsUpdate]

/-- Witness for downloadStream_create_truncate at a concrete pre-existing
destination. -/
theorem downloadStream_create_truncate_witness :
    (downloadStream (StreamOutcome.success [7]) ("a".toList)
        (fsUpdate emptyFs ("a".toList) [1])).2 =
      (downloadStream (StreamOutcome.success [7]) ("a".toList)
        (fsRemove (fsUpdate emptyFs ("a".toList) [1]) ("a".toList))).2 ∧
    (∀ d, StreamOutcome.success [7] = StreamOutcome.success d →
      (downloadStream (StreamOutcome.success [7]) ("a".toList)
          (fsUpdate emptyFs ("a".toList) [1])).1 ("a".toList) = some d ∧
      (downloadStream (StreamOutcome.success [7]) ("a".toList)
          (fsUpdate emptyFs ("a".toList) [1])).2 = true) :=
  downloadStream_create_truncate _ _ _ (by simp [fsUpdate, emptyFs])

/-! ### Cleanup on pipeline termination (C1) -/

/-- The run environment of the C1 failing input: catalog resolution and both
fetches succeed, the ffmpeg merge fails after the subprocess has produced a
partial output file (ffmpeg is invoked with -y and opens its output before
transcoding). -/
def leakRun : RunEnv :=
  { getVideoOk := true
    formats := [⟨720, 0, "video/mp4".toList, 100⟩,
                ⟨0, 128, "audio/mp4".toList, 50⟩]
    available := 1000000000000000
    tempID := "42".toList
    videoFetch := StreamOutcome.success [1]
    audioFetch := StreamOutcome.success [2]
    mergeOk := false
    mergeLeavesOutput := true
    mergedBytes := [9]
    streamToClientOk := true }

/-- C1 divergence, evaluated on the embedded handler: on a merge failure the
request finishes (status 500) with the video and audio temp paths deleted
but the partial output path still on the filesystem, because processDownload
returns an empty outputFile on every error and the handler removes the
output path only when that string is non-empty.  This contradicts the
claimed unconditional deletion of all three recorded paths. -/
theorem downloadHandler_merge_failure_leaks_output :
    (downloadHandler (defaultConfig "/tmp") ⟨true, true, leakRun⟩ emptyFs).1
        (finalPathOf "/tmp/youtube-downloads".toList "42".toList) = some [9] ∧
    (downloadHandler (defaultConfig "/tmp") ⟨true, true, leakRun⟩ emptyFs).1
        (videoPathOf "/tmp/youtube-downloads".toList "42".toList) = none ∧
    (downloadHandler (defaultConfig "/tmp") ⟨true, true, leakRun⟩ emptyFs).1
        (audioPathOf "/tmp/youtube-downloads".toList "42".toList) = none ∧
    (downloadHandler (defaultConfig "/tmp") ⟨true, true, leakRun⟩ emptyFs).2.1 =
      500 := by
  refine ⟨?_, ?_, ?_, ?_⟩ <;> decide

/-! ## Admission control (main.go: downloadSemaphore, the select in
downloadHandler).  The buffered channel of capacity config.MaxConcurrent is
a counting semaphore: a send (acquire) can only complete while fewer than
cap slots are held, the 30 second select timeout leaves the count unchanged
and answers 503, and the deferred receive (release) returns a held slot.
States are the number of held slots; traces are sequences of these
events. -/

inductive SemEvent where
  | acqOk : SemEvent
  | acqTimeout : SemEvent
  | release : SemEvent
deriving DecidableEq, Repr

/-- One transition of the admission gate: an acquire completes only below
capacity, a timed-out acquire changes nothing, a release requires a held
slot. -/
def semStep (cap s : Nat) : SemEvent → Option Nat
  | SemEvent.acqOk => if s < cap then some (s + 1) else none
  | SemEvent.acqTimeout => some s
  | SemEvent.release => if 0 < s then some (s - 1) else none

/-- Run a trace of admission events from a state. -/
def semRun (cap : Nat) : Nat → List SemEvent → Option Nat
  | s, [] => some s
  | s, e :: evs =>
      match semStep cap s e with
      | some s' => semRun cap s' evs
      | none => none

/-- The admission events of one downloadHandler invocation: a successful
acquire is paired with the deferred release that runs when the handler
returns, whatever the pipeline outcome; a timed-out acquire is a single
no-op event. -/
def handlerTrace (acquired : Bool) : List SemEvent :=
  if acquired then [SemEvent.acqOk, SemEvent.release] else [SemEvent.acqTimeout]

lemma semRun_le (cap : Nat) :
    ∀ (evs : List SemEvent) (s n : Nat), s ≤ cap →
      semRun cap s evs = some n → n ≤ cap := by
  intro evs
  induction evs with
  | nil => intro s n hs h; simp [semRun] at h; omega
  | cons e evs ih =>
      intro s n hs h
      match e with
      | SemEvent.acqOk =>
          simp only [semRun, semStep] at h
          by_cases hlt : s < cap
          · rw [if_pos hlt] at h
            exact ih (s + 1) n (by omega) h
          · rw [if_neg hlt] at h
            exact absurd h (by simp)
      | SemEvent.acqTimeout =>
          simp only [semRun, semStep] at h
          exact ih s n hs h
      | SemEvent.release =>
          simp only [semRun, semStep] at h
          by_cases hpos : 0 < s
          · rw [if_pos hpos] at h
            exact ih (s - 1) n (by omega) h
          · rw [if_neg hpos] at h
            exact absurd h (by simp)

/-- C6: the admission gate of capacity max_concurrent.  Every trace from the
idle state keeps the number of held slots at or below capacity; a request
whose acquire times out is answered 503 with the pipeline never run and the
filesystem untouched; and the handler trace of an admitted request (acquire
paired with the deferred release) returns the gate to its prior state, for
any pipeline outcome, while a timed-out request never changes it. -/
theorem downloadSemaphore_spec (cap : Nat) :
    (∀ (evs : List SemEvent) (n : Nat), semRun cap 0 evs = some n → n ≤ cap) ∧
    (∀ (cfg : Config) (henv : HandlerEnv) (fs : Fs), henv.urlPresent = true →
      henv.acquired = false → downloadHandler cfg henv fs = (fs, 503, false)) ∧
    (∀ s, s < cap → semRun cap s (handlerTrace true) = some s) ∧
    (∀ s, semRun cap s (handlerTrace false) = some s) := by
  refine ⟨fun evs n h => semRun_le cap evs 0 n (Nat.zero_le cap) h, ?_, ?_, ?_⟩
  · intro cfg henv fs hurl hacq
    unfold downloadHandler
    rw [hurl, hacq]
    simp
  · intro s hlt
    simp [handlerTrace, semRun, semStep, hlt]
  · intro s
    simp [handlerTrace, semRun, semStep]

/-- Witness for downloadSemaphore_spec at capacity 3 (the default
max_concurrent): a two-acquire one-release trace stays bounded, a concrete
unadmitted request is answered 503 without running the pipeline, and an
admitted handler restores the gate. -/
theorem downloadSemaphore_spec_witness :
    (1 : Nat) ≤ 3 ∧
    downloadHandler (defaultConfig "/tmp")
      ⟨true, false,
        { getVideoOk := false
          formats := []
          available := 0
          tempID := []
          videoFetch := StreamOutcome.noStream
          audioFetch := StreamOutcome.noStream
          mergeOk := false
          mergeLeavesOutput := false
          mergedBytes := []
          streamToClientOk := false }⟩ emptyFs = (emptyFs, 503, false) ∧
    semRun 3 2 (handlerTrace true) = some 2 ∧
    semRun 3 2 (handlerTrace false) = some 2 :=
  ⟨(downloadSemaphore_spec 3).1
      [SemEvent.acqOk, SemEvent.acqOk, SemEvent.release] 1 (by decide),
   (downloadSemaphore_spec 3).2.1 _ _ _ rfl rfl,
   (downloadSemaphore_spec 3).2.2.1 2 (by decide),
   (downloadSemaphore_spec 3).2.2.2 2⟩

/-! ## Metrics (main.go: Metrics, RecordDownload).  The counters are Go
int64 fields, so every stored update wraps at 2 to the 64th power (wrap64).
AverageFileSize is a float64 computed by dividing the two float64
conversions of the current counters; IEEE 754 conversion and division are
external to a shallow embedding, so the model carries the average in an
arbitrary value type and is parameterized over the float64 division
function f64div; every theorem below holds for all interpretations of
f64div, and states exactly that the stored average is the division of the
currently stored counters, never a stale value. -/

structure Metrics (α : Type) where
  totalDownloads : Int
  successfulDownloads : Int
  failedDownloads : Int
  totalBytesServed : Int
  averageFileSize : α

/-- The zero-valued package-level metrics record; z is the float64 zero
value of AverageFileSize (UptimeStart carries no counter content and is
omitted). -/
def initialMetrics {α : Type} (z : α) : Metrics α :=
  { totalDownloads := 0
    successfulDownloads := 0
    failedDownloads := 0
    totalBytesServed := 0
    averageFileSize := z }

/-- main.go RecordDownload under the metrics lock: TotalDownloads always
increments; on success SuccessfulDownloads and TotalBytesServed advance and
the average is recomputed from the stored counters when the stored
SuccessfulDownloads is positive; on failure FailedDownloads increments.
All counter arithmetic wraps as int64. -/
def recordDownload {α : Type} (f64div : Int → Int → α) (m : Metrics α)
    (success : Bool) (bytes : Int) : Metrics α :=
  let m1 : Metrics α := { m with totalDownloads := wrap64 (m.totalDownloads + 1) }
  if success then
    let m2 : Metrics α := { m1 with
      successfulDownloads := wrap64 (m1.successfulDownloads + 1)
      totalBytesServed := wrap64 (m1.totalBytesServed + bytes) }
    if 0 < m2.successfulDownloads then
      { m2 with averageFileSize :=
          f64div m2.totalBytesServed m2.successfulDownloads }
    else m2
  else { m1 with failedDownloads := wrap64 (m1.failedDownloads + 1) }

/-- A finite sequence of RecordDownload calls applied to the initial
metrics. -/
def runRecords {α : Type} (f64div : Int → Int → α) (z : α)
    (calls : List (Bool × Int)) : Metrics α :=
  calls.foldl (fun m c => recordDownload f64div m c.1 c.2) (initialMetrics z)

lemma wrap64_add_left (a b : Int) : wrap64 (wrap64 a + b) = wrap64 (a + b) := by
  unfold wrap64
  omega

lemma wrap64_step_success (s f : Int) :
    wrap64 (wrap64 (s + f) + 1) = wrap64 (wrap64 (s + 1) + f) := by
  rw [wrap64_add_left, wrap64_add_left]
  ring_nf

lemma wrap64_step_failed (s f : Int) :
    wrap64 (wrap64 (s + f) + 1) = wrap64 (s + wrap64 (f + 1)) := by
  rw [wrap64_add_left]
  rw [show s + wrap64 (f + 1) = wrap64 (f + 1) + s from add_comm _ _]
  rw [wrap64_add_left]
  ring_nf

lemma recordDownload_false {α : Type} (f64div : Int → Int → α) (m : Metrics α)
    (bytes : Int) :
    recordDownload f64div m false bytes =
      { m with totalDownloads := wrap64 (m.totalDownloads + 1)
               failedDownloads := wrap64 (m.failedDownloads + 1) } := rfl

lemma recordDownload_true {α : Type} (f64div : Int → Int → α) (m : Metrics α)
    (bytes : Int) :
    recordDownload f64div m true bytes =
      if 0 < wrap64 (m.successfulDownloads + 1) then
        { m with totalDownloads := wrap64 (m.totalDownloads + 1)
                 successfulDownloads := wrap64 (m.successfulDownloads + 1)
                 totalBytesServed := wrap64 (m.totalBytesServed + bytes)
                 averageFileSize := f64div (wrap64 (m.totalBytesServed + bytes))
                   (wrap64 (m.successfulDownloads + 1)) }
      else
        { m with totalDownloads := wrap64 (m.totalDownloads + 1)
                 successfulDownloads := wrap64 (m.successfulDownloads + 1)
                 totalBytesServed := wrap64 (m.totalBytesServed + bytes) } := rfl

lemma runRecords_concat {α : Type} (f64div : Int → Int → α) (z : α)
    (calls : List (Bool × Int)) (c : Bool × Int) :
    runRecords f64div z (calls ++ [c]) =
      recordDownload f64div (runRecords f64div z calls) c.1 c.2 := by
  simp [runRecords, List.foldl_append]

lemma runRecords_invariant {α : Type} (f64div : Int → Int → α) (z : α)
    (calls : List (Bool × Int)) :
    (runRecords f64div z calls).totalDownloads =
      wrap64 ((runRecords f64div z calls).successfulDownloads +
        (runRecords f64div z calls).failedDownloads) ∧
    (runRecords f64div z calls).totalBytesServed =
      wrap64 (((calls.filter (fun c => c.1)).map (fun c => c.2)).sum) ∧
    (0 < (runRecords f64div z calls).successfulDownloads →
      (runRecords f64div z calls).averageFileSize =
        f64div (runRecords f64div z calls).totalBytesServed
          (runRecords f64div z calls).successfulDownloads) := by
  induction calls using List.reverseRecOn with
  | nil =>
      refine ⟨by simp [runRecords, initialMetrics, wrap64], ?_, ?_⟩
      · simp [runRecords, initialMetrics, wrap64]
      · intro h
        simp [runRecords, initialMetrics] at h
  | append_singleton calls c ih =>
      rcases ih with ⟨htot, hbytes, havg⟩
      rw [runRecords_concat]
      rcases c with ⟨succ, bytes⟩
      cases succ
      · rw [recordDownload_false]
        refine ⟨?_, ?_, ?_⟩
        · show wrap64 ((runRecords f64div z calls).totalDownloads + 1) =
            wrap64 ((runRecords f64div z calls).successfulDownloads +
              wrap64 ((runRecords f64div z calls).failedDownloads + 1))
          rw [htot]
          exact wrap64_step_failed _ _
        · show (runRecords f64div z calls).totalBytesServed =
            wrap64 ((((calls ++ [((false : Bool), bytes)]).filter
              (fun c => c.1)).map (fun c => c.2)).sum)
          have hsum : ((((calls ++ [((false : Bool), bytes)]).filter
              (fun c => c.1)).map (fun c => c.2)).sum) =
              ((calls.filter (fun c => c.1)).map (fun c => c.2)).sum := by
            simp
          rw [hsum]
          exact hbytes
        · intro h
          exact havg h
      · rw [recordDownload_true]
        by_cases hpos : (0 : Int) <
            wrap64 ((runRecords f64div z calls).successfulDownloads + 1)
        · rw [if_pos hpos]
          refine ⟨?_, ?_, ?_⟩
          · show wrap64 ((runRecords f64div z calls).totalDownloads + 1) =
              wrap64 (wrap64 ((runRecords f64div z calls).successfulDownloads + 1) +
                (runRecords f64div z calls).failedDownloads)
            rw [htot]
            exact wrap64_step_success _ _
          · show wrap64 ((runRecords f64div z calls).totalBytesServed + bytes) =
              wrap64 ((((calls ++ [((true : Bool), bytes)]).filter
                (fun c => c.1)).map (fun c => c.2)).sum)
            have hsum : ((((calls ++ [((true : Bool), bytes)]).filter
                (fun c => c.1)).map (fun c => c.2)).sum) =
                ((calls.filter (fun c => c.1)).map (fun c => c.2)).sum + bytes := by
              simp
            rw [hsum, hbytes, wrap64_add_left]
          · intro _
            rfl
        · rw [if_neg hpos]
          refine ⟨?_, ?_, ?_⟩
          · show wrap64 ((runRecords f64div z calls).totalDownloads + 1) =
              wrap64 (wrap64 ((runRecords f64div z calls).successfulDownloads + 1) +
                (runRecords f64div z calls).failedDownloads)
            rw [htot]
            exact wrap64_step_success _ _
          · show wrap64 ((runRecords f64div z calls).totalBytesServed + bytes) =
              wrap64 ((((calls ++ [((true : Bool), bytes)]).filter
                (fun c => c.1)).map (fun c => c.2)).sum)
            have hsum : ((((calls ++ [((true : Bool), bytes)]).filter
                (fun c => c.1)).map (fun c => c.2)).sum) =
                ((calls.filter (fun c => c.1)).map (fun c => c.2)).sum + bytes := by
              simp
            rw [hsum, hbytes, wrap64_add_left]
          · intro h
            exact absurd h hpos

/-- C10 counterexample: two successful calls with byte arguments 2 to the
62nd wrap the int64 TotalBytesServed accumulator, so the stored counter
differs from the true sum of the successful byte arguments, refuting the
unbounded-sum reading of the claim (the division function is irrelevant
here and instantiated arbitrarily). -/
theorem recordDownload_wrap_counterexample :
    (runRecords (fun _ _ => (0 : Int)) 0
        [(true, 4611686018427387904), (true, 4611686018427387904)]).totalBytesServed =
      -9223372036854775808 ∧
    (([((true : Bool), (4611686018427387904 : Int)),
        (true, 4611686018427387904)].filter (fun c => c.1)).map
      (fun c => c.2)).sum = 9223372036854775808 := by
  constructor
  · decide
  · decide

/-- C10 amended: after every finite sequence of RecordDownload calls from
the initial metrics, the stored int64 TotalDownloads equals the int64 sum
of the stored SuccessfulDownloads and FailedDownloads, the stored
TotalBytesServed equals the int64-wrapped sum of the byte arguments of the
successful calls, and whenever the stored SuccessfulDownloads is positive,
AverageFileSize is exactly the float64 division of the currently stored
TotalBytesServed by the currently stored SuccessfulDownloads, for every
interpretation f64div of float64 conversion-and-division (no rounding
behavior is assumed). -/
theorem recordDownload_invariants {α : Type} (f64div : Int → Int → α) (z : α)
    (calls : List (Bool × Int)) :
    (runRecords f64div z calls).totalDownloads =
      wrap64 ((runRecords f64div z calls).successfulDownloads +
        (runRecords f64div z calls).failedDownloads) ∧
    (runRecords f64div z calls).totalBytesServed =
      wrap64 (((calls.filter (fun c => c.1)).map (fun c => c.2)).sum) ∧
    (0 < (runRecords f64div z calls).successfulDownloads →
      (runRecords f64div z calls).averageFileSize =
        f64div (runRecords f64div z calls).totalBytesServed
          (runRecords f64div z calls).successfulDownloads) :=
  runRecords_invariant f64div z calls

/-- Witness for recordDownload_invariants on a concrete call sequence with
two successes (100 and 50 bytes) and one failure, a concrete division
interpretation, discharging the positivity hypothesis of the average
equation. -/
theorem recordDownload_invariants_witness :
    (runRecords (fun a b => (a, b)) ((0 : Int), (0 : Int))
        [(true, 100), (false, 0), (true, 50)]).totalDownloads =
      wrap64 ((runRecords (fun a b => (a, b)) ((0 : Int), (0 : Int))
          [(true, 100), (false, 0), (true, 50)]).successfulDownloads +
        (runRecords (fun a b => (a, b)) ((0 : Int), (0 : Int))
          [(true, 100), (false, 0), (true, 50)]).failedDownloads) ∧
    (runRecords (fun a b => (a, b)) ((0 : Int), (0 : Int))
        [(true, 100), (false, 0), (true, 50)]).totalBytesServed =
      wrap64 ((([((true : Bool), (100 : Int)), (false, 0),
          (true, 50)].filter (fun c => c.1)).map (fun c => c.2)).sum) ∧
    (runRecords (fun a b => (a, b)) ((0 : Int), (0 : Int))
        [(true, 100), (false, 0), (true, 50)]).averageFileSize =
      ((runRecords (fun a b => (a, b)) ((0 : Int), (0 : Int))
          [(true, 100), (false, 0), (true, 50)]).totalBytesServed,
        (runRecords (fun a b => (a, b)) ((0 : Int), (0 : Int))
          [(true, 100), (false, 0), (true, 50)]).successfulDownloads) :=
  ⟨(recordDownload_invariants (fun a b => (a, b)) ((0 : Int), (0 : Int))
      [(true, 100), (false, 0), (true, 50)]).1,
   (recordDownload_invariants (fun a b => (a, b)) ((0 : Int), (0 : Int))
      [(true, 100), (false, 0), (true, 50)]).2.1,
   (recordDownload_invariants (fun a b => (a, b)) ((0 : Int), (0 : Int))
      [(true, 100), (false, 0), (true, 50)]).2.2 (by decide)⟩


/-! ## Filename sanitization (main.go: sanitizeFilename).  Go strings are
byte strings and len/slicing are byte-based, so the model works on byte
lists.  strings.ReplaceAll of a single ASCII byte is a byte map (UTF-8
continuation bytes are at least 128 and never collide with ASCII); the
double-underscore collapse loop rewrites until no adjacent pair 95,95
remains, with a fuel bounded by the length (each rewrite strictly shrinks
the string, so the fuel is never exhausted: hasDD_collapseDD below proves
the fixpoint is reached); Trim of the dot cutset and TrimSpace strip
leading and trailing dot bytes and Unicode White_Space encodings. -/

def invalidBytes : List Nat := [47, 92, 58, 42, 63, 34, 60, 62, 124, 10, 13, 9]

/-- strings.ReplaceAll(s, c, underscore) for a single ASCII byte c. -/
def replaceByte (c : Nat) (s : List Nat) : List Nat :=
  s.map fun b => if b = c then 95 else b

/-- The first loop of sanitizeFilename: replace every invalid byte. -/
def replaceInvalid (s : List Nat) : List Nat :=
  invalidBytes.foldl (fun s c => replaceByte c s) s

/-- strings.ReplaceAll(s, double underscore, single underscore): leftmost
non-overlapping rewriting. -/
def replaceDD : List Nat → List Nat
  | [] => []
  | [b] => [b]
  | a :: b :: rest =>
      if a = 95 ∧ b = 95 then 95 :: replaceDD rest else a :: replaceDD (b :: rest)

/-- strings.Contains(s, double underscore). -/
def hasDD : List Nat → Bool
  | [] => false
  | [_] => false
  | a :: b :: rest => (a == 95 && b == 95) || hasDD (b :: rest)

/-- The collapse loop, fuel-bounded by the string length; each rewrite of a
string containing the pair strictly shrinks it, so the loop always reaches
its fixpoint within the fuel. -/
def collapseDDGo : Nat → List Nat → List Nat
  | 0, s => s
  | fuel + 1, s => if hasDD s then collapseDDGo fuel (replaceDD s) else s

def collapseDD (s : List Nat) : List Nat := collapseDDGo s.length s

/-- strings.Trim(s, dot cutset): strip leading and trailing 46 bytes. -/
def trimDots (s : List Nat) : List Nat :=
  ((s.dropWhile (fun b => b == 46)).reverse.dropWhile (fun b => b == 46)).reverse

/-- The UTF-8 encodings of the Unicode White_Space code points trimmed by
strings.TrimSpace (unicode.IsSpace): 0009-000D, 0020, 0085, 00A0, 1680,
2000-200A, 2028, 2029, 202F, 205F, 3000. -/
def spaceSeqs : List (List Nat) :=
  [[9], [10], [11], [12], [13], [32],
   [194, 133], [194, 160],
   [225, 154, 128],
   [226, 128, 128], [226, 128, 129], [226, 128, 130], [226, 128, 131],
   [226, 128, 132], [226, 128, 133], [226, 128, 134], [226, 128, 135],
   [226, 128, 136], [226, 128, 137], [226, 128, 138],
   [226, 128, 168], [226, 128, 169], [226, 128, 175],
   [226, 129, 159],
   [227, 128, 128]]

/-- Try each candidate byte sequence as a prefix of s; on a match return the
remainder. -/
def matchSpace : List (List Nat) → List Nat → Option (List Nat)
  | [], _ => none
  | q :: qs, s => if q.isPrefixOf s then some (s.drop q.length) else matchSpace qs s

/-- Strip matched space encodings from the front, fuel-bounded by the
length (each match consumes at least one byte). -/
def trimLeftSpaceGo (seqs : List (List Nat)) : Nat → List Nat → List Nat
  | 0, s => s
  | fuel + 1, s =>
      match matchSpace seqs s with
      | some t => trimLeftSpaceGo seqs fuel t
      | none => s

def trimLeftSpace (s : List Nat) : List Nat := trimLeftSpaceGo spaceSeqs s.length s

def spaceSeqsRev : List (List Nat) := spaceSeqs.map List.reverse

/-- strings.TrimRight of the space runes: strip reversed space encodings
from the front of the reversed string. -/
def trimRightSpace (s : List Nat) : List Nat :=
  (trimLeftSpaceGo spaceSeqsRev s.reverse.length s.reverse).reverse

/-- strings.TrimSpace. -/
def trimSpace (s : List Nat) : List Nat := trimRightSpace (trimLeftSpace s)

def videoBytes : List Nat := [118, 105, 100, 101, 111]

/-- main.go sanitizeFilename: replace invalid bytes, collapse double
underscores, trim dots then whitespace, truncate to 200 bytes, and fall
back to the fixed name for an empty result. -/
def sanitizeFilename (s : List Nat) : List Nat :=
  let s1 := replaceInvalid s
  let s2 := collapseDD s1
  let s3 := trimSpace (trimDots s2)
  let s4 := if 200 < s3.length then s3.take 200 else s3
  if s4 = [] then videoBytes else s4

/-! ### Properties of the sanitization pipeline -/

lemma not_mem_replaceByte_self (c : Nat) (hc : c ≠ 95) (s : List Nat) :
    c ∉ replaceByte c s := by
  intro hmem
  rcases List.mem_map.mp hmem with ⟨a, _, heq⟩
  by_cases h : a = c
  · rw [if_pos h] at heq
    exact hc heq.symm
  · rw [if_neg h] at heq
    exact h heq

lemma not_mem_replaceByte (b c : Nat) (hb : b ≠ 95) (s : List Nat)
    (h : b ∉ s) : b ∉ replaceByte c s := by
  intro hmem
  rcases List.mem_map.mp hmem with ⟨a, ha, heq⟩
  by_cases hac : a = c
  · rw [if_pos hac] at heq
    exact hb heq.symm
  · rw [if_neg hac] at heq
    rw [heq] at ha
    exact h ha

lemma not_mem_fold_replace_keep :
    ∀ (L : List Nat) (s : List Nat) (b : Nat), b ≠ 95 → b ∉ s →
      b ∉ L.foldl (fun s c => replaceByte c s) s := by
  intro L
  induction L with
  | nil => intro s b _ h; exact h
  | cons c L ih =>
      intro s b hb h
      exact ih _ b hb (not_mem_replaceByte b c hb s h)

lemma not_mem_fold_replace :
    ∀ (L : List Nat) (s : List Nat) (b : Nat), b ∈ L → b ≠ 95 →
      b ∉ L.foldl (fun s c => replaceByte c s) s := by
  intro L
  induction L with
  | nil => intro s b hb; simp at hb
  | cons c L ih =>
      intro s b hb hb95
      rcases List.mem_cons.mp hb with rfl | hb'
      · exact not_mem_fold_replace_keep L _ b hb95 (not_mem_replaceByte_self b hb95 s)
      · exact ih _ b hb' hb95

/-- After the replacement loop none of the twelve invalid bytes remains. -/
lemma replaceInvalid_not_mem (s : List Nat) :
    ∀ b ∈ invalidBytes, b ∉ replaceInvalid s := by
  intro b hb
  have hb95 : b ≠ 95 := fun he => absurd (he ▸ hb) (by decide)
  exact not_mem_fold_replace invalidBytes s b hb hb95

lemma replaceDD_length_le : ∀ s : List Nat, (replaceDD s).length ≤ s.length := by
  intro s
  induction s using replaceDD.induct with
  | case1 => simp [replaceDD]
  | case2 b => simp [replaceDD]
  | case3 a b rest h ih =>
      simp only [replaceDD, if_pos h, List.length_cons] at *
      omega
  | case4 a b rest h ih =>
      simp only [replaceDD, if_neg h, List.length_cons] at *
      omega

lemma replaceDD_length_lt : ∀ s : List Nat, hasDD s = true →
    (replaceDD s).length < s.length := by
  intro s
  induction s using replaceDD.induct with
  | case1 => simp [hasDD]
  | case2 b => simp [hasDD]
  | case3 a b rest h ih =>
      intro _
      have hle := replaceDD_length_le rest
      simp only [replaceDD, if_pos h, List.length_cons] at *
      omega
  | case4 a b rest h ih =>
      intro hdd
      simp only [hasDD, Bool.or_eq_true, Bool.and_eq_true, beq_iff_eq] at hdd
      rcases hdd with ⟨h1, h2⟩ | hdd
      · exact absurd ⟨h1, h2⟩ h
      · have := ih hdd
        simp only [replaceDD, if_neg h, List.length_cons] at *
        omega

lemma not_mem_replaceDD (b : Nat) (hb : b ≠ 95) :
    ∀ s : List Nat, b ∉ s → b ∉ replaceDD s := by
  intro s
  induction s using replaceDD.induct with
  | case1 => simp [replaceDD]
  | case2 c => simp [replaceDD]
  | case3 x y rest h ih =>
      intro hmem
      simp only [replaceDD, if_pos h, List.mem_cons, not_or] at *
      exact ⟨hb, ih hmem.2.2⟩
  | case4 x y rest h ih =>
      intro hmem
      simp only [replaceDD, if_neg h, List.mem_cons, not_or] at *
      exact ⟨hmem.1, ih ⟨hmem.2.1, hmem.2.2⟩⟩

/-- hasDD is exactly: the two-underscore pair occurs as a substring. -/
lemma hasDD_iff : ∀ s : List Nat, hasDD s = true ↔ [95, 95] <:+: s := by
  intro s
  induction s using hasDD.induct with
  | case1 =>
      constructor
      · intro h; simp [hasDD] at h
      · intro h; have := h.sublist.length_le; simp at this
  | case2 c =>
      constructor
      · intro h; simp [hasDD] at h
      · intro h; have := h.sublist.length_le; simp at this
  | case3 a b rest ih =>
      simp only [hasDD, Bool.or_eq_true, Bool.and_eq_true, beq_iff_eq, ih]
      constructor
      · rintro (⟨rfl, rfl⟩ | hinf)
        · exact ⟨[], rest, rfl⟩
        · exact List.infix_cons hinf
      · intro hinf
        rcases List.infix_cons_iff.mp hinf with hpre | hinf'
        · rcases List.cons_prefix_cons.mp hpre with ⟨rfl, hpre2⟩
          rcases List.cons_prefix_cons.mp hpre2 with ⟨rfl, _⟩
          exact Or.inl ⟨rfl, rfl⟩
        · exact Or.inr hinf'

lemma hasDD_false_of_isInfix {s t : List Nat} (hinf : t <:+: s)
    (h : hasDD s = false) : hasDD t = false := by
  cases htt : hasDD t with
  | false => rfl
  | true =>
      have h2 := (hasDD_iff s).mpr (((hasDD_iff t).mp htt).trans hinf)
      rw [h] at h2
      exact absurd h2 Bool.false_ne_true

lemma hasDD_collapseDDGo : ∀ (fuel : Nat) (s : List Nat), s.length ≤ fuel →
    hasDD (collapseDDGo fuel s) = false := by
  intro fuel
  induction fuel with
  | zero =>
      intro s hs
      have hnil : s = [] := List.eq_nil_of_length_eq_zero (by omega)
      subst hnil
      simp [collapseDDGo, hasDD]
  | succ fuel ih =>
      intro s hs
      simp only [collapseDDGo]
      by_cases h : hasDD s
      · rw [if_pos h]
        exact ih _ (by have := replaceDD_length_lt s h; omega)
      · rw [if_neg h]
        simpa using h

/-- The collapse loop reaches its fixpoint: no adjacent underscore pair
survives. -/
lemma hasDD_collapseDD (s : List Nat) : hasDD (collapseDD s) = false :=
  hasDD_collapseDDGo s.length s le_rfl

lemma not_mem_collapseDDGo (b : Nat) (hb : b ≠ 95) :
    ∀ (fuel : Nat) (s : List Nat), b ∉ s → b ∉ collapseDDGo fuel s := by
  intro fuel
  induction fuel with
  | zero => intro s h; simpa [collapseDDGo] using h
  | succ fuel ih =>
      intro s h
      simp only [collapseDDGo]
      by_cases hdd : hasDD s
      · rw [if_pos hdd]
        exact ih _ (not_mem_replaceDD b hb s h)
      · rw [if_neg hdd]
        exact h

lemma matchSpace_suffix : ∀ (qs : List (List Nat)) (s t : List Nat),
    matchSpace qs s = some t → t <:+ s := by
  intro qs
  induction qs with
  | nil => intro s t h; simp [matchSpace] at h
  | cons q qs ih =>
      intro s t h
      simp only [matchSpace] at h
      by_cases hp : q.isPrefixOf s
      · rw [if_pos hp] at h
        simp only [Option.some.injEq] at h
        rw [← h]
        exact List.drop_suffix _ _
      · rw [if_neg hp] at h
        exact ih s t h

lemma trimLeftSpaceGo_suffix (seqs : List (List Nat)) :
    ∀ (fuel : Nat) (s : List Nat), trimLeftSpaceGo seqs fuel s <:+ s := by
  intro fuel
  induction fuel with
  | zero => intro s; simp [trimLeftSpaceGo]
  | succ fuel ih =>
      intro s
      simp only [trimLeftSpaceGo]
      rcases hm : matchSpace seqs s with _ | t
      · exact List.suffix_refl s
      · exact (ih t).trans (matchSpace_suffix seqs s t hm)

lemma trimLeftSpace_suffix (s : List Nat) : trimLeftSpace s <:+ s :=
  trimLeftSpaceGo_suffix spaceSeqs s.length s

lemma reverse_suffix_of_reverse {u s : List Nat} (h : u <:+ s.reverse) :
    u.reverse <+: s := by
  have h2 : (u.reverse).reverse <:+ s.reverse := by simpa using h
  exact List.reverse_suffix.mp h2

lemma trimRightSpace_isPref (s : List Nat) : trimRightSpace s <+: s := by
  unfold trimRightSpace
  exact reverse_suffix_of_reverse
    (trimLeftSpaceGo_suffix spaceSeqsRev s.reverse.length s.reverse)

lemma trimDots_isInfix (s : List Nat) : trimDots s <:+: s := by
  unfold trimDots
  have h1 : s.dropWhile (fun b => b == 46) <:+ s := List.dropWhile_suffix _
  have h2 : ((s.dropWhile (fun b => b == 46)).reverse.dropWhile
      (fun b => b == 46)).reverse <+: s.dropWhile (fun b => b == 46) :=
    reverse_suffix_of_reverse (List.dropWhile_suffix _)
  exact h2.isInfix.trans h1.isInfix

lemma trimSpace_isInfix (s : List Nat) : trimSpace s <:+: s :=
  (trimRightSpace_isPref (trimLeftSpace s)).isInfix.trans
    (trimLeftSpace_suffix s).isInfix

/-- C9: for every input, sanitizeFilename returns a non-empty byte string of
at most 200 bytes containing none of the twelve invalid bytes and no two
adjacent underscores, and every input whose trimmed, collapsed form is empty
yields the fixed name video. -/
theorem sanitizeFilename_spec (s : List Nat) :
    sanitizeFilename s ≠ [] ∧
    (sanitizeFilename s).length ≤ 200 ∧
    (∀ b ∈ invalidBytes, b ∉ sanitizeFilename s) ∧
    hasDD (sanitizeFilename s) = false ∧
    ((trimSpace (trimDots (collapseDD (replaceInvalid s)))).length = 0 →
      sanitizeFilename s = videoBytes) := by
  simp only [sanitizeFilename]
  set s1 := replaceInvalid s with hs1
  set s2 := collapseDD s1 with hs2
  set s3 := trimSpace (trimDots s2) with hs3
  have hmem2 : ∀ b ∈ invalidBytes, b ∉ s2 := by
    intro b hb
    have hb95 : b ≠ 95 := fun he => absurd (he ▸ hb) (by decide)
    exact not_mem_collapseDDGo b hb95 _ _ (replaceInvalid_not_mem s b hb)
  have hdd2 : hasDD s2 = false := hasDD_collapseDD s1
  have hinf3 : s3 <:+: s2 :=
    (trimSpace_isInfix (trimDots s2)).trans (trimDots_isInfix s2)
  have hmem3 : ∀ b ∈ invalidBytes, b ∉ s3 :=
    fun b hb hm => hmem2 b hb (hinf3.sublist.subset hm)
  have hdd3 : hasDD s3 = false := hasDD_false_of_isInfix hinf3 hdd2
  set s4 := if 200 < s3.length then s3.take 200 else s3 with hs4
  have hpre4 : s4 <+: s3 := by
    rw [hs4]
    by_cases h : 200 < s3.length
    · rw [if_pos h]
      exact List.take_prefix _ _
    · rw [if_neg h]
      try exact List.prefix_refl _
  have hmem4 : ∀ b ∈ invalidBytes, b ∉ s4 :=
    fun b hb hm => hmem3 b hb (hpre4.sublist.subset hm)
  have hdd4 : hasDD s4 = false := hasDD_false_of_isInfix hpre4.isInfix hdd3
  have hlen4 : s4.length ≤ 200 := by
    rw [hs4]
    by_cases h : 200 < s3.length
    · rw [if_pos h]
      simp [List.length_take]
    · rw [if_neg h]
      omega
  have h34 : s3.length = 0 → s4 = [] := by
    intro h
    have : s3 = [] := List.eq_nil_of_length_eq_zero h
    rw [hs4, this]
    simp
  by_cases h4 : s4 = []
  · rw [if_pos h4]
    exact ⟨by decide, by decide, by decide, by decide, fun _ => rfl⟩
  · rw [if_neg h4]
    exact ⟨h4, hlen4, hmem4, hdd4, fun h0 => absurd (h34 h0) h4⟩

/-- Witness for sanitizeFilename_spec: the single-dot input trims to empty
and yields the fixed name video. -/
theorem sanitizeFilename_spec_witness : sanitizeFilename [46] = videoBytes :=
  (sanitizeFilename_spec [46]).2.2.2.2 (by decide)
